import Mathlib

/-!
Verification of the text-to-table core of `streamlit_app.py`
(ConfirmationStatementPull): the confirmation-statement parser
`process_text_to_csv` and the table consolidator `consolidate_csvs`.

Python strings are modelled as `List Char` (`PyStr`); each Python string
operation used by the source (`str.strip`, `str.split(sep)`, `str.split()`,
`str.lower`, `str.title`, `str.startswith`, `" ".join`, and the regex
`(.*?)\s+shares` used via `re.search`) is embedded as a recursive Lean
definition with the same semantics on the ASCII inputs the program handles.
Exceptions (Python `IndexError` from out-of-range list indexing) are
modelled by `Option`: a `none` result is an uncaught exception.
-/

/-- Python strings, modelled as lists of characters. -/
abbrev PyStr := List Char

/-- ASCII whitespace, as recognised by Python `str.strip` / `str.split()` /
the regex class `\s` (space, tab, newline, carriage return, vertical tab,
form feed). -/
def isWs (c : Char) : Bool :=
  c = ' ' || c = '\t' || c = '\n' || c = '\r' || c = '\x0b' || c = '\x0c'

/-- Drop leading whitespace characters. -/
def dropLeadingWs : PyStr → PyStr
  | [] => []
  | c :: r => if isWs c then dropLeadingWs r else c :: r

/-- Python `str.strip()`: remove whitespace from both ends. -/
def pyStrip (s : PyStr) : PyStr :=
  ((dropLeadingWs ((dropLeadingWs s).reverse)).reverse)

/-- Python `str.startswith(p)`: `pyStartsWith s p` is true when `p` is a
prefix of `s`. -/
def pyStartsWith : PyStr → PyStr → Bool
  | _, [] => true
  | [], _ :: _ => false
  | c :: s, p :: ps => c = p && pyStartsWith s ps

/-- Python `str.split(sep)` for a one-character separator: splits at every
occurrence of `sep`, keeping empty segments (`"".split(sep) == [""]`). -/
def splitOnChar (sep : Char) : PyStr → List PyStr
  | [] => [[]]
  | c :: r =>
    let rest := splitOnChar sep r
    if c = sep then [] :: rest
    else
      match rest with
      | h :: t => (c :: h) :: t
      | [] => [[c]]

/-- Accumulator loop for Python `str.split()` (split on whitespace runs,
dropping empty tokens): `cur` holds the current token reversed. -/
def tokensAux : PyStr → PyStr → List PyStr
  | [], cur => if cur = [] then [] else [cur.reverse]
  | c :: r, cur =>
    if isWs c then
      if cur = [] then tokensAux r [] else cur.reverse :: tokensAux r []
    else tokensAux r (c :: cur)

/-- Python `str.split()` with no argument: whitespace-delimited tokens,
empty tokens dropped. -/
def pyTokens (s : PyStr) : List PyStr := tokensAux s []

/-- Python `" ".join(ts)`: tokens joined by single spaces. -/
def joinSpace : List PyStr → PyStr
  | [] => []
  | [t] => t
  | t :: rest => t ++ ' ' :: joinSpace rest

/-- Python `str.title()` restricted to ASCII: the first letter of every
maximal run of letters is uppercased, the rest lowercased; non-letters pass
through. The boolean argument records whether the previous character was a
letter. -/
def pyTitleAux : Bool → PyStr → PyStr
  | _, [] => []
  | prevAlpha, c :: r =>
    if c.isAlpha then
      (if prevAlpha then c.toLower else c.toUpper) :: pyTitleAux true r
    else c :: pyTitleAux false r

/-- Python `str.title()`. -/
def pyTitle (s : PyStr) : PyStr := pyTitleAux false s

/-- The literal `"shares"` matched by the regex `(.*?)\s+shares`. -/
def sharesL : PyStr := ('s' :: 'h' :: 'a' :: 'r' :: 'e' :: 's' :: [])

/-- After at least one whitespace character has been consumed by `\s+`,
either the literal `"shares"` matches here, or one more whitespace
character is consumed. -/
def afterWsRun : PyStr → Bool
  | [] => false
  | c :: r => pyStartsWith (c :: r) sharesL || (isWs c && afterWsRun r)

/-- `re.search(r"(.*?)\s+shares", s)`: leftmost match, non-greedy group.
Returns `group(1)` — the characters strictly before the first position at
which `\s+shares` matches — or `none` when the regex does not match. -/
def sharesGroup1 : PyStr → Option PyStr
  | [] => none
  | c :: r =>
    if isWs c && afterWsRun r then some []
    else (sharesGroup1 r).map (fun g => c :: g)

/-- The literal prefix `"Shareholding"` tested by
`line.startswith("Shareholding")`. -/
def shareholdingL : PyStr :=
  ('S' :: 'h' :: 'a' :: 'r' :: 'e' :: 'h' :: 'o' :: 'l' :: 'd' :: 'i' :: 'n' :: 'g' :: [])

/-- The literal prefix `"Name:"` tested by `next_line.startswith("Name:")`. -/
def nameL : PyStr := ('N' :: 'a' :: 'm' :: 'e' :: ':' :: [])

/-- The literal prefix `"Confirmation Statement date:"`. -/
def csDateL : PyStr := ("Confirmation Statement date:".toList)

/-- The sentinel `"Unknown"`. -/
def unknownL : PyStr := ("Unknown".toList)

/-- The sentinel `"PENDING"`. -/
def pendingL : PyStr := ("PENDING".toList)

/-!
**The shareholding-line field extraction

Embeds lines 109–115 of `process_text_to_csv`:
```
parts = line.split(":")
shareholding_number = parts[0].split()[-1]
shareholding_details = parts[1].strip().split()
amount_of_shares = shareholding_details[0]
raw_type_of_shares = " ".join(shareholding_details[1:])
type_of_shares_match = re.search(r"(.*?)\s+shares", raw_type_of_shares.lower())
type_of_shares = type_of_shares_match.group(1).title() if type_of_shares_match else "Unknown"
```
`parts[1]` raises `IndexError` when the line has no colon, and
`shareholding_details[0]` raises when nothing but whitespace follows the
first colon (up to the second colon, if any); both are modelled as `none`.
-/

/-- The share-class label extracted from the joined tokens after the share
count: `group(1).title()` of `re.search(r"(.*?)\s+shares", raw.lower())`,
or `"Unknown"` when the regex does not match. -/
def typeOfShares (restTokens : List PyStr) : PyStr :=
  match sharesGroup1 ((joinSpace restTokens).map Char.toLower) with
  | some g => pyTitle g
  | none => unknownL

/-- Field extraction from one (stripped) line starting with
`"Shareholding"`: returns `(shareholding_number, amount_of_shares,
type_of_shares)`, or `none` when the Python code raises `IndexError`. -/
def parseShareholdingLine (line : PyStr) : Option (PyStr × PyStr × PyStr) :=
  match splitOnChar ':' line with
  | p0 :: p1 :: _ =>
    match (pyTokens p0).getLast? with
    | none => none
    | some num =>
      match pyTokens (pyStrip p1) with
      | [] => none
      | amount :: restTokens => some (num, amount, typeOfShares restTokens)
  | _ => none

/-!
**The holder-name search

Embeds lines 118–125: starting from the line after the `"Shareholding"`
line, scan forward to the end of the input for the first line whose
stripped text starts with `"Name:"`; on a hit take
`next_line.split(":")[1].strip()` (the guard guarantees the colon, so the
index never raises). `shareholder_name or "PENDING"` turns an empty result
— no `"Name:"` line at all, or one with a blank first-colon segment —
into the sentinel.
-/

/-- The forward scan for the first following `"Name:"` line; returns the
captured (possibly empty) name, or `[]` when no such line exists. -/
def scanName : List PyStr → PyStr
  | [] => []
  | l :: rest =>
    let nl := pyStrip l
    if pyStartsWith nl nameL then pyStrip (((splitOnChar ':' nl).get? 1).getD [])
    else scanName rest

/-- `shareholder_name or "PENDING"` applied to the scan result. -/
def holderName (rest : List PyStr) : PyStr :=
  let n := scanName rest
  if n = [] then pendingL else n

/-!
**The statement-date capture and the main line loop

Embeds lines 98–128. Each line is stripped; a line starting with
`"Confirmation Statement date:"` (case-sensitive) overwrites the statement
date with `line.split(":")[1].strip()`; a line starting with
`"Shareholding"` produces one record `[number, amount, class, holder]`.
The two prefix tests are independent `if`s in the source and are tested in
this order on every line.
-/

/-- The statement-date update a single (stripped) line performs: lines
starting with `"Confirmation Statement date:"` replace the current
candidate, all other lines leave it unchanged. A later match overwrites an
earlier one. -/
def dateUpd (date : PyStr) (line : PyStr) : PyStr :=
  if pyStartsWith line csDateL then pyStrip (((splitOnChar ':' line).get? 1).getD [])
  else date

/-- The main scan of `process_text_to_csv` (lines 98–128): walks the line
list carrying the statement date and the accumulated `shareholder_data`
rows; `none` models an uncaught `IndexError` from a malformed
`"Shareholding"` line. -/
def loopAux : List PyStr → PyStr → List (List PyStr) → Option (PyStr × List (List PyStr))
  | [], date, recs => some (date, recs)
  | l :: rest, date, recs =>
    let line := pyStrip l
    let date' := dateUpd date line
    if pyStartsWith line shareholdingL then
      match parseShareholdingLine line with
      | none => none
      | some (num, amt, cls) =>
          loopAux rest date' (recs ++ [[num, amt, cls, holderName rest]])
    else loopAux rest date' recs

/-- The fixed CSV skeleton plus the shareholder rows (lines 81–92 and
130–135): six metadata rows, a blank separator row, the shareholding
header row, then one row `[""] + record` per parsed record. The
`extend` branch of the source's append loop is unreachable (the table has
exactly 8 rows when the loop starts and grows by one per iteration), so
every record is appended as a fresh row. -/
def buildCsvRows (legal_name company_number date : PyStr)
    (recs : List (List PyStr)) : List (List PyStr) :=
  [("Company Legal Name".toList) ] ::
  [legal_name] ::
  [("Company Number".toList)] ::
  [company_number] ::
  [("Statement Date".toList)] ::
  [date] ::
  [] ::
  ([] :: ("Shareholding #".toList) :: ("Amount of Shares".toList) ::
    ("Type of Shares".toList) :: ("Shareholder Name".toList) :: []) ::
  recs.map (fun r => [] :: r)

/-- `process_text_to_csv(text_content, legal_name, company_number,
statement_number)` (lines 76–142), at the level of CSV rows: returns the
row grid and the extracted statement date, or `none` when the parse raises.
The CSV serialization itself (`csv.writer`) is an external concern; equal
row grids serialize to byte-identical CSV. `statement_number` is unused in
the source and kept for signature fidelity. -/
def process_text_to_csv (text_content legal_name company_number : PyStr)
    (statement_number : Nat) : Option (List (List PyStr) × PyStr) :=
  match loopAux (splitOnChar '\x0a' text_content) [] [] with
  | none => none
  | some (date, recs) =>
      some (buildCsvRows legal_name company_number date recs, date)

/-!
**The consolidator

Embeds `consolidate_csvs` (lines 145–172) at the level of row grids: each
input buffer is its parsed row list (`csv.reader` of a buffer written by
`csv.writer` recovers exactly the rows that were written). For each row
index below the tallest table's row count, every table contributes its row
at that index, or — when it has no such row — a run of empty cells as wide
as its first row (`[""] * len(table[0])`, an `IndexError` when the table
has no rows at all); a one-cell gap follows each table's contribution and
the trailing gap is dropped.
-/

/-- `[""] * len(table[0])`: the padding row for a table that has run out of
rows; `none` models the `IndexError` on a zero-row table. -/
def padRow (table : List (List PyStr)) : Option (List PyStr) :=
  match table with
  | [] => none
  | r0 :: _ => some (List.replicate r0.length ([] : PyStr))

/-- One table's contribution to consolidated row `i`: its own row when it
has one, the padding row otherwise. -/
def rowContribution (i : Nat) (table : List (List PyStr)) : Option (List PyStr) :=
  match table.get? i with
  | some r => some r
  | none => padRow table

/-- The per-table contributions to consolidated row `i`, in table order;
`none` as soon as one table's contribution raises. -/
def rowChunks (i : Nat) : List (List (List PyStr)) → Option (List (List PyStr))
  | [] => some []
  | t :: ts =>
    match rowContribution i t, rowChunks i ts with
    | some r, some rest => some (r :: rest)
    | _, _ => none

/-- Consolidated row `i`: every table's contribution followed by a one-cell
gap, with the single trailing gap dropped (`row[:-1]`). -/
def consolidatedRow (tables : List (List (List PyStr))) (i : Nat) :
    Option (List PyStr) :=
  (rowChunks i tables).map
    (fun contribs => ((contribs.map (fun c => c ++ [([] : PyStr)])).flatten).dropLast)

/-- The `for i in range(max_rows)` loop, appending consolidated rows in
order. -/
def consolidateRows (tables : List (List (List PyStr))) : Nat → Option (List (List PyStr))
  | 0 => some []
  | n + 1 =>
    match consolidateRows tables n, consolidatedRow tables n with
    | some acc, some row => some (acc ++ [row])
    | _, _ => none

/-- `consolidate_csvs(csv_buffers)` at the level of row grids. -/
def consolidate_csvs (tables : List (List (List PyStr))) :
    Option (List (List PyStr)) :=
  consolidateRows tables ((tables.map List.length).foldl max 0)

/-!
**Spec-side reading of the share-class capture

§4.3 of the specification reads the class label as "the free-text run
between the share-count digits and the literal word `shares`". On the
strings the program actually feeds the regex — lowercased tokens joined by
single spaces — the regex capture coincides with the plain substring
search below, which is proved as `sharesGroup1_eq_takeBefore`.
-/

/-- Modelled from the spec's words: the text strictly before the first
occurrence of the substring `" shares"`, or `none` when that substring
does not occur. -/
def takeBeforeSpaceShares : PyStr → Option PyStr
  | [] => none
  | c :: r =>
    if pyStartsWith (c :: r) (' ' :: sharesL) then some []
    else (takeBeforeSpaceShares r).map (fun g => c :: g)

/-- Every whitespace character of the string is a plain space. -/
def spaceOnlyWs (s : PyStr) : Bool := s.all (fun c => !(isWs c) || c = ' ')

/-- No two adjacent spaces. -/
def noDoubleSpace : PyStr → Bool
  | [] => true
  | [_] => true
  | c :: c' :: r => !(c = ' ' && c' = ' ') && noDoubleSpace (c' :: r)

/-- Single-spaced strings: all whitespace is `' '` and no run of two. Every
string the program hands to `re.search` — lowercased whitespace-free tokens
joined by single spaces — has this shape. -/
def singleSpaced (s : PyStr) : Bool := spaceOnlyWs s && noDoubleSpace s

/-!
**Helper lemmas
-/

/-- A line starting with `"Shareholding"` does not start with `"Name:"`. -/
lemma not_name_of_shareholding (s : PyStr)
    (h : pyStartsWith s shareholdingL = true) : pyStartsWith s nameL = false := by
  cases s with
  | nil => simp [pyStartsWith, shareholdingL] at h
  | cons c r =>
    simp only [shareholdingL, nameL, pyStartsWith, Bool.and_eq_true,
      decide_eq_true_eq] at h ⊢
    obtain ⟨hc, -⟩ := h
    subst hc
    rw [show (decide (('S' : Char) = 'N')) = false from by decide, Bool.false_and]

/-- Lines that never start with `"Name:"` are skipped by the name scan. -/
lemma scanName_append (mid rest : List PyStr)
    (h : ∀ m ∈ mid, pyStartsWith (pyStrip m) nameL = false) :
    scanName (mid ++ rest) = scanName rest := by
  induction mid with
  | nil => rfl
  | cons m ms ih =>
    have hm := h m (List.mem_cons_self m ms)
    simp only [List.cons_append, scanName, hm, Bool.false_eq_true, if_false]
    exact ih (fun x hx => h x (List.mem_cons_of_mem m hx))

/-- The name scan stops at the first `"Name:"` line and captures
`split(":")[1].strip()`. -/
lemma scanName_cons_name (l : PyStr) (rest : List PyStr)
    (h : pyStartsWith (pyStrip l) nameL = true) :
    scanName (l :: rest) = pyStrip (((splitOnChar ':' (pyStrip l)).get? 1).getD []) := by
  simp [scanName, h]

/-- One step of the main loop on a `"Shareholding"` line that parses. -/
lemma loopAux_cons_shareholding (l : PyStr) (rest : List PyStr)
    (date : PyStr) (recs : List (List PyStr)) (num amt cls : PyStr)
    (hsh : pyStartsWith (pyStrip l) shareholdingL = true)
    (hp : parseShareholdingLine (pyStrip l) = some (num, amt, cls)) :
    loopAux (l :: rest) date recs =
      loopAux rest (dateUpd date (pyStrip l))
        (recs ++ [[num, amt, cls, holderName rest]]) := by
  simp only [loopAux, hsh, if_true, hp]

/-- The statement date a successful run returns is the left fold of the
per-line date update over all lines: later matches overwrite earlier ones. -/
lemma loopAux_date (lines : List PyStr) :
    ∀ date recs d rs, loopAux lines date recs = some (d, rs) →
      d = lines.foldl (fun acc l => dateUpd acc (pyStrip l)) date := by
  induction lines with
  | nil =>
    intro date recs d rs h
    simp only [loopAux, Option.some.injEq, Prod.mk.injEq] at h
    simp [h.1.symm]
  | cons l rest ih =>
    intro date recs d rs h
    simp only [loopAux] at h
    split at h
    · split at h
      · exact absurd h (by simp)
      · simpa using ih _ _ _ _ h
    · simpa using ih _ _ _ _ h

/-- A successful run appends exactly one record per line whose stripped
text starts with `"Shareholding"`. -/
lemma loopAux_count (lines : List PyStr) :
    ∀ date recs d rs, loopAux lines date recs = some (d, rs) →
      rs.length = recs.length +
        lines.countP (fun l => pyStartsWith (pyStrip l) shareholdingL) := by
  induction lines with
  | nil =>
    intro date recs d rs h
    simp only [loopAux, Option.some.injEq, Prod.mk.injEq] at h
    simp [h.2.symm]
  | cons l rest ih =>
    intro date recs d rs h
    rw [List.countP_cons]
    by_cases hsh : pyStartsWith (pyStrip l) shareholdingL = true
    · simp only [loopAux, hsh, if_true] at h
      split at h
      · exact absurd h (by simp)
      · have hlen := ih _ _ _ _ h
        simp only [List.length_append, List.length_cons, List.length_nil] at hlen
        rw [if_pos hsh]
        omega
    · simp only [loopAux, if_neg hsh] at h
      have hlen := ih _ _ _ _ h
      rw [if_neg hsh]
      omega

/-- Every record a successful run appends has exactly four fields. -/
lemma loopAux_shape (lines : List PyStr) :
    ∀ date recs d rs, loopAux lines date recs = some (d, rs) →
      (∀ r ∈ recs, r.length = 4) → ∀ r ∈ rs, r.length = 4 := by
  induction lines with
  | nil =>
    intro date recs d rs h hrecs
    simp only [loopAux, Option.some.injEq, Prod.mk.injEq] at h
    rw [← h.2]
    exact hrecs
  | cons l rest ih =>
    intro date recs d rs h hrecs
    simp only [loopAux] at h
    split at h
    · split at h
      · exact absurd h (by simp)
      · refine ih _ _ _ _ h ?_
        intro r hr
        rcases List.mem_append.1 hr with hr' | hr'
        · exact hrecs r hr'
        · simp only [List.mem_singleton] at hr'
          rw [hr']
          rfl
    · exact ih _ _ _ _ h hrecs

/-- `split(sep)` never yields an empty list. -/
lemma splitOnChar_exists_cons (sep : Char) (s : PyStr) :
    ∃ h t, splitOnChar sep s = h :: t := by
  induction s with
  | nil => exact ⟨[], [], rfl⟩
  | cons c r ih =>
    obtain ⟨h0, t0, hr⟩ := ih
    by_cases hc : c = sep
    · exact ⟨[], splitOnChar sep r, by simp [splitOnChar, hc]⟩
    · exact ⟨c :: h0, t0, by simp [splitOnChar, hc, hr]⟩

/-- The first `split(sep)` segment of a string starting with a
non-separator character starts with that character. -/
lemma splitOnChar_cons_of_ne (sep c : Char) (r : PyStr) (hc : ¬ c = sep) :
    ∃ h0 t0, splitOnChar sep r = h0 :: t0 ∧
      splitOnChar sep (c :: r) = (c :: h0) :: t0 := by
  obtain ⟨h0, t0, hr⟩ := splitOnChar_exists_cons sep r
  exact ⟨h0, t0, hr, by simp [splitOnChar, hc, hr]⟩

/-- The token accumulator never returns the empty list while a token is in
progress. -/
lemma tokensAux_ne_nil (s : PyStr) :
    ∀ cur, cur ≠ [] → tokensAux s cur ≠ [] := by
  induction s with
  | nil =>
    intro cur hcur
    simp [tokensAux, hcur]
  | cons c r ih =>
    intro cur hcur
    by_cases hws : isWs c = true
    · simp only [tokensAux, hws, if_true, hcur, if_false]
      simp
    · simp only [tokensAux, hws, if_false]
      exact ih (c :: cur) (by simp)

/-- `split()` of a string whose first character is not whitespace is
nonempty. -/
lemma pyTokens_ne_nil (c : Char) (r : PyStr) (hws : ¬ isWs c = true) :
    pyTokens (c :: r) ≠ [] := by
  simp only [pyTokens, tokensAux, hws, if_false]
  exact tokensAux_ne_nil r [c] (by simp)

/-- A nonempty list has a last element. -/
lemma getLast?_exists_of_ne_nil (l : List PyStr) (h : l ≠ []) :
    ∃ a, l.getLast? = some a := by
  cases l with
  | nil => exact absurd rfl h
  | cons x xs => exact ⟨(x :: xs).getLast (by simp), List.getLast?_eq_getLast _ _⟩

/-- Unfolding of the field extraction when the line splits into at least
two colon segments and the first colon segment has a token and the text
after the first colon has a token. -/
lemma parseShareholdingLine_eq (line p0 p1 : PyStr) (tl : List PyStr)
    (num amt : PyStr) (rest : List PyStr)
    (hsplit : splitOnChar ':' line = p0 :: p1 :: tl)
    (hlast : (pyTokens p0).getLast? = some num)
    (htok : pyTokens (pyStrip p1) = amt :: rest) :
    parseShareholdingLine line = some (num, amt, typeOfShares rest) := by
  unfold parseShareholdingLine
  rw [hsplit]
  simp only [hlast, htok]

/-- A line starting with `"Shareholding"` has a token before its first
colon, so `parts[0].split()[-1]` never raises. -/
lemma shareholding_num_exists (line p0 : PyStr) (tl : List PyStr)
    (hsh : pyStartsWith line shareholdingL = true)
    (hsplit : splitOnChar ':' line = p0 :: tl) :
    ∃ num, (pyTokens p0).getLast? = some num := by
  cases line with
  | nil => simp [pyStartsWith, shareholdingL] at hsh
  | cons c r =>
    have hc : c = 'S' := by
      simp only [shareholdingL, pyStartsWith, Bool.and_eq_true, decide_eq_true_eq] at hsh
      exact hsh.1
    subst hc
    obtain ⟨h0, t0, _, hcons⟩ := splitOnChar_cons_of_ne ':' 'S' r (by decide)
    rw [hcons] at hsplit
    have hp0 : p0 = 'S' :: h0 := by
      injection hsplit with h1 _
      exact h1.symm
    subst hp0
    exact getLast?_exists_of_ne_nil _ (pyTokens_ne_nil 'S' h0 (by decide))

/-- The main loop never raises when every `"Shareholding"` line has a
nonblank segment between its first colon and the following colon or end of
line. -/
lemma loopAux_some (lines : List PyStr)
    (h : ∀ l ∈ lines, pyStartsWith (pyStrip l) shareholdingL = true →
      ∃ p0 p1 tl, splitOnChar ':' (pyStrip l) = p0 :: p1 :: tl ∧
        pyTokens (pyStrip p1) ≠ []) :
    ∀ date recs, ∃ res, loopAux lines date recs = some res := by
  induction lines with
  | nil => exact fun date recs => ⟨(date, recs), rfl⟩
  | cons l rest ih =>
    intro date recs
    have ihrest := ih (fun x hx => h x (List.mem_cons_of_mem l hx))
    by_cases hsh : pyStartsWith (pyStrip l) shareholdingL = true
    · obtain ⟨p0, p1, tl, hsplit, htok⟩ := h l (List.mem_cons_self l rest) hsh
      obtain ⟨num, hlast⟩ := shareholding_num_exists (pyStrip l) p0 (p1 :: tl) hsh hsplit
      obtain ⟨amt, rtok, htok'⟩ : ∃ a rt, pyTokens (pyStrip p1) = a :: rt := by
        cases hx : pyTokens (pyStrip p1) with
        | nil => exact absurd hx htok
        | cons a rt => exact ⟨a, rt, rfl⟩
      rw [loopAux_cons_shareholding l rest date recs num amt (typeOfShares rtok) hsh
        (parseShareholdingLine_eq (pyStrip l) p0 p1 tl num amt rtok hsplit hlast htok')]
      exact ihrest _ _
    · simp only [loopAux, if_neg hsh]
      exact ihrest _ _

/-- A single table contributes its own row at every in-range index. -/
lemma consolidatedRow_single (t : List (List PyStr)) (i : Nat) (hi : i < t.length) :
    consolidatedRow [t] i = t[i]? := by
  have hget : ∃ r, t[i]? = some r := by
    cases hx : t[i]? with
    | none => exact absurd (List.getElem?_eq_none_iff.1 hx) (by omega)
    | some r => exact ⟨r, rfl⟩
  obtain ⟨r, hr⟩ := hget
  simp [consolidatedRow, rowChunks, rowContribution, hr]

/-- The append loop over a single table reproduces its first `n` rows. -/
lemma consolidateRows_single (t : List (List PyStr)) :
    ∀ n, n ≤ t.length → consolidateRows [t] n = some (t.take n) := by
  intro n
  induction n with
  | zero => intro _; rfl
  | succ n ih =>
    intro hn
    have h1 := ih (by omega)
    have h2 := consolidatedRow_single t n (by omega)
    have hget : ∃ r, t[n]? = some r := by
      cases hx : t[n]? with
      | none => exact absurd (List.getElem?_eq_none_iff.1 hx) (by omega)
      | some r => exact ⟨r, rfl⟩
    obtain ⟨r, hr⟩ := hget
    simp only [consolidateRows, h1, h2, hr]
    rw [List.take_succ, hr]
    rfl

/-- The consolidated output of the append loop has exactly as many rows as
loop iterations. -/
lemma consolidateRows_length (tables : List (List (List PyStr))) :
    ∀ n rows, consolidateRows tables n = some rows → rows.length = n := by
  intro n
  induction n with
  | zero =>
    intro rows h
    simp only [consolidateRows, Option.some.injEq] at h
    simp [h.symm]
  | succ n ih =>
    intro rows h
    simp only [consolidateRows] at h
    split at h
    · next acc row hacc hrow =>
      simp only [Option.some.injEq] at h
      rw [h.symm, List.length_append, ih acc hacc]
      rfl
    · exact absurd h (by simp)

/-- A table with at least one row always contributes to a consolidated row:
its own row when in range, its padding row otherwise. -/
lemma rowContribution_some (i : Nat) (t : List (List PyStr)) (h : t ≠ []) :
    ∃ r, rowContribution i t = some r := by
  cases hx : t[i]? with
  | some r => exact ⟨r, by simp [rowContribution, hx]⟩
  | none =>
    cases t with
    | nil => exact absurd rfl h
    | cons r0 rt =>
      exact ⟨List.replicate r0.length [], by simp [rowContribution, hx, padRow]⟩

/-- When every table has at least one row, no contribution raises. -/
lemma rowChunks_some (i : Nat) (tables : List (List (List PyStr)))
    (h : ∀ t ∈ tables, t ≠ []) : ∃ l, rowChunks i tables = some l := by
  induction tables with
  | nil => exact ⟨[], rfl⟩
  | cons t ts ih =>
    obtain ⟨r, hr⟩ := rowContribution_some i t (h t (List.mem_cons_self t ts))
    obtain ⟨l, hl⟩ := ih (fun x hx => h x (List.mem_cons_of_mem t hx))
    exact ⟨r :: l, by simp [rowChunks, hr, hl]⟩

/-- When every table has at least one row, the whole consolidation
succeeds. -/
lemma consolidateRows_some (tables : List (List (List PyStr)))
    (h : ∀ t ∈ tables, t ≠ []) :
    ∀ n, ∃ rows, consolidateRows tables n = some rows := by
  intro n
  induction n with
  | zero => exact ⟨[], rfl⟩
  | succ n ih =>
    obtain ⟨acc, hacc⟩ := ih
    obtain ⟨l, hl⟩ := rowChunks_some n tables h
    refine ⟨acc ++ [((l.map (fun c => c ++ [([] : PyStr)])).flatten).dropLast], ?_⟩
    simp [consolidateRows, hacc, consolidatedRow, hl]

/-- A table that has run out of rows is padded with empty cells of its
first row's width. -/
lemma rowContribution_pad (i : Nat) (t : List (List PyStr)) (h : t ≠ [])
    (hle : t.length ≤ i) :
    rowContribution i t = some (List.replicate (t.headI.length) ([] : PyStr)) := by
  cases t with
  | nil => exact absurd rfl h
  | cons r0 rt =>
    have hx : (r0 :: rt)[i]? = none := List.getElem?_eq_none_iff.2 hle
    simp [rowContribution, hx, padRow, List.headI]

/-- On single-spaced strings — the only strings the program feeds the
regex — the non-greedy leftmost regex capture of `(.*?)\s+shares` is the
plain prefix before the first occurrence of the substring `" shares"`. -/
lemma sharesGroup1_eq_takeBefore (s : PyStr) :
    singleSpaced s = true → sharesGroup1 s = takeBeforeSpaceShares s := by
  induction s with
  | nil => intro _; rfl
  | cons c r ih =>
    intro h
    obtain ⟨hso, hnd⟩ := Bool.and_eq_true_iff.mp h
    simp only [spaceOnlyWs, List.all_cons, Bool.and_eq_true] at hso
    have hsr : singleSpaced r = true := by
      refine Bool.and_eq_true_iff.mpr ⟨hso.2, ?_⟩
      cases r with
      | nil => rfl
      | cons c' r' =>
        simp only [noDoubleSpace, Bool.and_eq_true] at hnd
        exact hnd.2
    have hcond : (isWs c && afterWsRun r) = pyStartsWith (c :: r) (' ' :: sharesL) := by
      have hrhs : pyStartsWith (c :: r) (' ' :: sharesL) =
          (decide (c = ' ') && pyStartsWith r sharesL) := rfl
      rw [hrhs]
      by_cases hwc : isWs c = true
      · have hc : c = ' ' := by
          rcases Bool.or_eq_true_iff.mp hso.1 with hx | hx
          · rw [hwc] at hx
            exact absurd hx (by decide)
          · exact of_decide_eq_true hx
        subst hc
        rw [hwc, show decide ((' ' : Char) = ' ') = true from by decide,
          Bool.true_and, Bool.true_and]
        cases r with
        | nil => simp [afterWsRun, sharesL, pyStartsWith]
        | cons c' r' =>
          have hc' : isWs c' = false := by
            by_cases hx : isWs c' = true
            · have hcsp : c' = ' ' := by
                simp only [List.all_cons, Bool.and_eq_true] at hso
                rcases Bool.or_eq_true_iff.mp hso.2.1 with hy | hy
                · rw [hx] at hy
                  exact absurd hy (by decide)
                · exact of_decide_eq_true hy
              subst hcsp
              simp only [noDoubleSpace, Bool.and_eq_true] at hnd
              exact absurd hnd.1 (by decide)
            · exact eq_false_of_ne_true hx
          simp [afterWsRun, hc']
      · have hwc' : isWs c = false := eq_false_of_ne_true hwc
        have hc : decide (c = ' ') = false := by
          by_cases hx : c = ' '
          · rw [hx] at hwc'
            exact absurd hwc' (by decide)
          · exact decide_eq_false hx
        rw [hwc', hc, Bool.false_and, Bool.false_and]
    simp only [sharesGroup1, takeBeforeSpaceShares, hcond, ih hsr]

/-!
**Claim theorems
-/

set_option maxRecDepth 8000

/-- Claim C1, counterexample. The claim says that when a `"Shareholding"`
line is followed by another `"Shareholding"` line before any `"Name:"`
line, the first block's record gets the sentinel `"PENDING"` and the name
search never crosses the block boundary. On the input
`"Shareholding 1: ..."` / `"Shareholding 2: ..."` / `"Name: Alice"` the
code instead assigns `"Alice"` — the name found beyond the second block's
start — to the FIRST record (row 8 of the table). -/
theorem c1_counterexample :
    (process_text_to_csv
      ("Shareholding 1: 100 Ordinary shares\nShareholding 2: 50 Ordinary shares\nName: Alice".toList)
      ("Acme Ltd".toList) ("123".toList) 1).map (fun p => p.1.get? 8) =
      some (some [([] : PyStr), ("1".toList), ("100".toList), ("Ordinary".toList), ("Alice".toList)]) ∧
    ("Alice".toList : PyStr) ≠ pendingL := by
  constructor
  · decide
  · decide

/-- Claim C1, amended. The name search started by a `"Shareholding"` line
does not stop at a subsequent `"Shareholding"` block boundary (`sh2`
below): it scans to the end of the input and is decided by the FIRST
later line starting with `"Name:"`, wherever that line lies. The record's
holder name is that line's captured text (between its first colon and the
next colon or end of line, trimmed) when the capture is nonblank, and the
sentinel `"PENDING"` when the capture is blank; `"PENDING"` also results
when no `"Name:"` line follows at all (second conjunct). -/
theorem c1_name_search_crosses_blocks (shLine sh2 nameLine date : PyStr)
    (mid tail : List PyStr) (num amt cls : PyStr) (recs : List (List PyStr))
    (hsh1 : pyStartsWith (pyStrip shLine) shareholdingL = true)
    (hparse : parseShareholdingLine (pyStrip shLine) = some (num, amt, cls))
    (hsh2 : pyStartsWith (pyStrip sh2) shareholdingL = true)
    (hmid : ∀ m ∈ mid, pyStartsWith (pyStrip m) nameL = false)
    (hname : pyStartsWith (pyStrip nameLine) nameL = true) :
    (loopAux (shLine :: sh2 :: (mid ++ nameLine :: tail)) date recs =
      loopAux (sh2 :: (mid ++ nameLine :: tail)) (dateUpd date (pyStrip shLine))
        (recs ++ [[num, amt, cls,
          if pyStrip (((splitOnChar ':' (pyStrip nameLine)).get? 1).getD []) = []
          then pendingL
          else pyStrip (((splitOnChar ':' (pyStrip nameLine)).get? 1).getD [])]])) ∧
    (loopAux (shLine :: sh2 :: mid) date recs =
      loopAux (sh2 :: mid) (dateUpd date (pyStrip shLine))
        (recs ++ [[num, amt, cls, pendingL]])) := by
  have h2 : pyStartsWith (pyStrip sh2) nameL = false := not_name_of_shareholding _ hsh2
  constructor
  · rw [loopAux_cons_shareholding shLine (sh2 :: (mid ++ nameLine :: tail))
      date recs num amt cls hsh1 hparse]
    have hscan : scanName (sh2 :: (mid ++ nameLine :: tail)) =
        pyStrip (((splitOnChar ':' (pyStrip nameLine)).get? 1).getD []) := by
      simp only [scanName, h2, Bool.false_eq_true, if_false]
      rw [scanName_append mid (nameLine :: tail) hmid,
        scanName_cons_name nameLine tail hname]
    rw [show holderName (sh2 :: (mid ++ nameLine :: tail)) =
        (if pyStrip (((splitOnChar ':' (pyStrip nameLine)).get? 1).getD []) = []
         then pendingL
         else pyStrip (((splitOnChar ':' (pyStrip nameLine)).get? 1).getD [])) from by
      simp only [holderName, hscan]]
  · rw [loopAux_cons_shareholding shLine (sh2 :: mid)
      date recs num amt cls hsh1 hparse]
    have hscan : scanName (sh2 :: mid) = [] := by
      simp only [scanName, h2, Bool.false_eq_true, if_false]
      have := scanName_append mid [] hmid
      rw [List.append_nil] at this
      rw [this]
      rfl
    rw [show holderName (sh2 :: mid) = pendingL from by simp [holderName, hscan]]

/-- Claim C1, witness for the amended theorem at a concrete input: the
crossing is real — record 1's holder comes from the first `"Name:"` line,
which lies beyond block 2's start (and with no `"Name:"` line at all the
record gets `"PENDING"`). -/
theorem c1_witness :
    pyStartsWith (pyStrip ("Name: Alice".toList)) nameL = true ∧
    ((loopAux [("Shareholding 1: 100 Ordinary shares".toList),
        ("Shareholding 2: 50 Ordinary shares".toList), ("Name: Alice".toList)] [] [] =
      loopAux [("Shareholding 2: 50 Ordinary shares".toList), ("Name: Alice".toList)]
        (dateUpd [] (pyStrip ("Shareholding 1: 100 Ordinary shares".toList)))
        [[("1".toList), ("100".toList), ("Ordinary".toList),
          if pyStrip (((splitOnChar ':' (pyStrip ("Name: Alice".toList))).get? 1).getD []) = []
          then pendingL
          else pyStrip (((splitOnChar ':' (pyStrip ("Name: Alice".toList))).get? 1).getD [])]]) ∧
    (loopAux [("Shareholding 1: 100 Ordinary shares".toList),
        ("Shareholding 2: 50 Ordinary shares".toList)] [] [] =
      loopAux [("Shareholding 2: 50 Ordinary shares".toList)]
        (dateUpd [] (pyStrip ("Shareholding 1: 100 Ordinary shares".toList)))
        [[("1".toList), ("100".toList), ("Ordinary".toList), pendingL]])) :=
  ⟨by decide,
    c1_name_search_crosses_blocks
      ("Shareholding 1: 100 Ordinary shares".toList)
      ("Shareholding 2: 50 Ordinary shares".toList)
      ("Name: Alice".toList) [] [] []
      ("1".toList) ("100".toList) ("Ordinary".toList) []
      (by decide) (by decide) (by decide) (by decide) (by decide)⟩

/-- Claim C2, counterexample. The claim says parsing never raises and that
a `"Shareholding"` line with no colon still yields an all-"Unknown"
record. In the code, `parts[1]` raises an uncaught `IndexError` on the
input consisting of the bare line `"Shareholding"`, aborting the document
(modelled as `none`) with no record at all. -/
theorem c2_counterexample :
    process_text_to_csv ("Shareholding".toList) ("Acme Ltd".toList) ("123".toList) 1 = none := by
  decide

/-- Claim C2, amended. Parsing raises no exception provided every line
whose stripped text starts with `"Shareholding"` contains a colon and has
at least one whitespace-delimited token between its first colon and the
following colon or end of line; lines violating this make `parts[1]` or
`shareholding_details[0]` raise. -/
theorem c2_no_exception_when_blocks_wellformed
    (text legal_name company_number : PyStr) (statement_number : Nat)
    (h : ∀ l ∈ splitOnChar '\x0a' text, pyStartsWith (pyStrip l) shareholdingL = true →
      ∃ p0 p1 tl, splitOnChar ':' (pyStrip l) = p0 :: p1 :: tl ∧
        pyTokens (pyStrip p1) ≠ []) :
    ∃ res, process_text_to_csv text legal_name company_number statement_number = some res := by
  obtain ⟨⟨d, recs⟩, hres⟩ := loopAux_some (splitOnChar '\x0a' text) h [] []
  refine ⟨(buildCsvRows legal_name company_number d recs, d), ?_⟩
  unfold process_text_to_csv
  rw [hres]

/-- Claim C2, witness: a well-formed one-block input parses to a result. -/
theorem c2_witness :
    (∀ l ∈ splitOnChar '\x0a' ("Shareholding 1: 5 ordinary shares".toList),
      pyStartsWith (pyStrip l) shareholdingL = true →
      ∃ p0 p1 tl, splitOnChar ':' (pyStrip l) = p0 :: p1 :: tl ∧
        pyTokens (pyStrip p1) ≠ []) ∧
    ∃ res, process_text_to_csv ("Shareholding 1: 5 ordinary shares".toList)
      ("Acme Ltd".toList) ("123".toList) 1 = some res := by
  have harg : ∀ l ∈ splitOnChar '\x0a' ("Shareholding 1: 5 ordinary shares".toList),
      pyStartsWith (pyStrip l) shareholdingL = true →
      ∃ p0 p1 tl, splitOnChar ':' (pyStrip l) = p0 :: p1 :: tl ∧
        pyTokens (pyStrip p1) ≠ [] := by
    intro l hl _
    rw [show splitOnChar '\x0a' ("Shareholding 1: 5 ordinary shares".toList) =
      [("Shareholding 1: 5 ordinary shares".toList)] from by decide] at hl
    have hl' : l = ("Shareholding 1: 5 ordinary shares".toList) := by
      simpa using hl
    subst hl'
    exact ⟨("Shareholding 1".toList), (" 5 ordinary shares".toList), [], by decide, by decide⟩
  exact ⟨harg, c2_no_exception_when_blocks_wellformed _ _ _ 1 harg⟩

/-- Claim C3, counterexample. The claim promises one record per detected
`"Shareholding"` block regardless of malformation. The input
`"Shareholding 1:"` contains exactly one detected block, yet the code
raises `IndexError` on `shareholding_details[0]` (nothing follows the
colon) and emits no record at all. -/
theorem c3_counterexample :
    (splitOnChar '\x0a' ("Shareholding 1:".toList)).countP
        (fun l => pyStartsWith (pyStrip l) shareholdingL) = 1 ∧
    process_text_to_csv ("Shareholding 1:".toList) ("Acme Ltd".toList) ("123".toList) 1 = none := by
  constructor
  · decide
  · decide

/-- Claim C3, amended. Whenever the parse completes without raising, the
table has exactly one data row per line whose stripped text starts with
`"Shareholding"`: its row count is 8 (the fixed metadata/header rows) plus
the number of such lines. -/
theorem c3_count_invariant_on_success
    (text legal_name company_number : PyStr) (statement_number : Nat)
    (rows : List (List PyStr)) (d : PyStr)
    (h : process_text_to_csv text legal_name company_number statement_number = some (rows, d)) :
    rows.length = 8 + (splitOnChar '\x0a' text).countP
      (fun l => pyStartsWith (pyStrip l) shareholdingL) := by
  unfold process_text_to_csv at h
  cases hx : loopAux (splitOnChar '\x0a' text) [] [] with
  | none => rw [hx] at h; exact absurd h (by simp)
  | some p =>
    obtain ⟨date, recs⟩ := p
    rw [hx] at h
    simp only [Option.some.injEq, Prod.mk.injEq] at h
    have hcount := loopAux_count (splitOnChar '\x0a' text) [] [] date recs hx
    simp only [List.length_nil, Nat.zero_add] at hcount
    rw [← h.1]
    simp only [buildCsvRows, List.length_cons, List.length_append, List.length_map]
    omega

/-- Claim C3, witness: a two-block input yields a 10-row table. -/
theorem c3_witness :
    process_text_to_csv
      ("Shareholding 1: 100 Ordinary shares\nName: A\nShareholding 2: 50 Ordinary shares\nName: B".toList)
      ("Acme Ltd".toList) ("123".toList) 1 =
      some (buildCsvRows ("Acme Ltd".toList) ("123".toList) []
        [[("1".toList), ("100".toList), ("Ordinary".toList), ("A".toList)],
         [("2".toList), ("50".toList), ("Ordinary".toList), ("B".toList)]], []) ∧
    (buildCsvRows ("Acme Ltd".toList) ("123".toList) []
        [[("1".toList), ("100".toList), ("Ordinary".toList), ("A".toList)],
         [("2".toList), ("50".toList), ("Ordinary".toList), ("B".toList)]]).length =
      8 + (splitOnChar '\x0a'
        ("Shareholding 1: 100 Ordinary shares\nName: A\nShareholding 2: 50 Ordinary shares\nName: B".toList)).countP
        (fun l => pyStartsWith (pyStrip l) shareholdingL) :=
  ⟨by decide,
    c3_count_invariant_on_success _ ("Acme Ltd".toList) ("123".toList) 1 _ [] (by decide)⟩

/-- Claim C4, counterexample. The claim says the statement output includes
per-share-class totals (e.g. records with class Ordinary and counts 100
and 50 plus an Unknown record yield a totals entry `{Ordinary, 150}`)
inside the built table. On exactly such an input the code's table consists
solely of the fixed metadata/header rows plus one data row per record — no
cell anywhere holds `"150"`, so no totals block exists. -/
theorem c4_counterexample :
    process_text_to_csv
      ("Shareholding 1: 100 Ordinary shares\nName: A\nShareholding 2: 50 Ordinary shares\nName: B\nShareholding 3: junk\nName: C".toList)
      ("Acme Ltd".toList) ("123".toList) 1 =
      some (buildCsvRows ("Acme Ltd".toList) ("123".toList) []
        [[("1".toList), ("100".toList), ("Ordinary".toList), ("A".toList)],
         [("2".toList), ("50".toList), ("Ordinary".toList), ("B".toList)],
         [("3".toList), ("junk".toList), unknownL, ("C".toList)]], []) ∧
    (process_text_to_csv
      ("Shareholding 1: 100 Ordinary shares\nName: A\nShareholding 2: 50 Ordinary shares\nName: B\nShareholding 3: junk\nName: C".toList)
      ("Acme Ltd".toList) ("123".toList) 1).map
        (fun p => p.1.countP (fun row => row.contains ("150".toList))) = some 0 := by
  constructor
  · decide
  · decide

/-- Claim C4, amended. The code computes no share-class totals at all:
every successfully built table is exactly the fixed skeleton
`buildCsvRows` — metadata rows, blank separator, shareholding header —
followed by one five-cell data row per four-field record; no totals block
is ever present. -/
theorem c4_no_totals_block
    (text legal_name company_number : PyStr) (statement_number : Nat)
    (rows : List (List PyStr)) (d : PyStr)
    (h : process_text_to_csv text legal_name company_number statement_number = some (rows, d)) :
    ∃ recs, rows = buildCsvRows legal_name company_number d recs ∧
      ∀ r ∈ recs, r.length = 4 := by
  unfold process_text_to_csv at h
  cases hx : loopAux (splitOnChar '\x0a' text) [] [] with
  | none => rw [hx] at h; exact absurd h (by simp)
  | some p =>
    obtain ⟨date, recs⟩ := p
    rw [hx] at h
    simp only [Option.some.injEq, Prod.mk.injEq] at h
    obtain ⟨hrows, hd⟩ := h
    subst hd
    exact ⟨recs, hrows.symm,
      loopAux_shape (splitOnChar '\x0a' text) [] [] date recs hx (by simp)⟩

/-- Claim C4, witness: the amended theorem at the counterexample input. -/
theorem c4_witness :
    process_text_to_csv ("Shareholding 1: 100 Ordinary shares".toList)
      ("Acme Ltd".toList) ("123".toList) 1 =
      some (buildCsvRows ("Acme Ltd".toList) ("123".toList) []
        [[("1".toList), ("100".toList), ("Ordinary".toList), pendingL]], []) ∧
    ∃ recs, buildCsvRows ("Acme Ltd".toList) ("123".toList) []
        [[("1".toList), ("100".toList), ("Ordinary".toList), pendingL]] =
      buildCsvRows ("Acme Ltd".toList) ("123".toList) [] recs ∧
      ∀ r ∈ recs, r.length = 4 :=
  ⟨by decide,
    c4_no_totals_block ("Shareholding 1: 100 Ordinary shares".toList)
      ("Acme Ltd".toList) ("123".toList) 1 _ [] (by decide)⟩

/-- Claim C5, counterexample. The claim says the date is captured
case-insensitively from `"Statement date:"` or
`"Confirmation Statement date:"` lines and that the first match is kept.
The code matches only the exact prefix `"Confirmation Statement date:"`
(so a `"Statement date:"` line yields no date) and a later match
overwrites an earlier one (the second conjunct returns the second date,
not the first). -/
theorem c5_counterexample :
    (process_text_to_csv ("Statement date: 01/01/2020".toList)
      ("Acme Ltd".toList) ("123".toList) 1).map (fun p => p.2) = some [] ∧
    (process_text_to_csv
      ("Confirmation Statement date: 01/01/2020\nConfirmation Statement date: 02/02/2021".toList)
      ("Acme Ltd".toList) ("123".toList) 1).map (fun p => p.2) =
      some ("02/02/2021".toList) := by
  constructor
  · decide
  · decide

/-- Claim C5, amended. The statement date is captured only from lines
whose stripped text starts with the case-sensitive prefix
`"Confirmation Statement date:"`, taking the text between the first colon
and the following colon or end of line, trimmed; each later matching line
overwrites the earlier value (the result is a left fold, keeping the LAST
match, not the first), and the captured value is also placed in the
table's row 5. -/
theorem c5_date_last_match_case_sensitive
    (text legal_name company_number : PyStr) (statement_number : Nat)
    (rows : List (List PyStr)) (d : PyStr)
    (h : process_text_to_csv text legal_name company_number statement_number = some (rows, d)) :
    d = (splitOnChar '\x0a' text).foldl (fun acc l => dateUpd acc (pyStrip l)) [] ∧
    rows.get? 5 = some [d] := by
  unfold process_text_to_csv at h
  cases hx : loopAux (splitOnChar '\x0a' text) [] [] with
  | none => rw [hx] at h; exact absurd h (by simp)
  | some p =>
    obtain ⟨date, recs⟩ := p
    rw [hx] at h
    simp only [Option.some.injEq, Prod.mk.injEq] at h
    obtain ⟨hrows, hd⟩ := h
    subst hd
    refine ⟨loopAux_date (splitOnChar '\x0a' text) [] [] date recs hx, ?_⟩
    rw [← hrows]
    rfl

/-- Claim C5, witness: with two matching lines the returned date is the
last one, and it sits in row 5 of the table. -/
theorem c5_witness :
    process_text_to_csv
      ("Confirmation Statement date: 01/01/2020\nConfirmation Statement date: 02/02/2021".toList)
      ("Acme Ltd".toList) ("123".toList) 1 =
      some (buildCsvRows ("Acme Ltd".toList) ("123".toList) ("02/02/2021".toList) [],
        ("02/02/2021".toList)) ∧
    (("02/02/2021".toList) : PyStr) = (splitOnChar '\x0a'
      ("Confirmation Statement date: 01/01/2020\nConfirmation Statement date: 02/02/2021".toList)).foldl
      (fun acc l => dateUpd acc (pyStrip l)) [] ∧
    (buildCsvRows ("Acme Ltd".toList) ("123".toList) ("02/02/2021".toList) []).get? 5 =
      some [("02/02/2021".toList)] :=
  ⟨by decide,
    c5_date_last_match_case_sensitive _ ("Acme Ltd".toList) ("123".toList) 1 _ _ (by decide)⟩

/-- Claim C6. For every list of input tables (each having at least one
row, as every built statement table does — a zero-row table has no header
row and the claim's padding rule does not apply to it), the consolidated
output has exactly as many rows as the tallest input table, and a table
that has run out of rows contributes a run of empty cells exactly as wide
as its own first (header) row. -/
theorem c6_consolidate_padding (tables : List (List (List PyStr)))
    (h : ∀ t ∈ tables, t ≠ []) :
    ∃ rows, consolidate_csvs tables = some rows ∧
      rows.length = (tables.map List.length).foldl max 0 ∧
      ∀ t ∈ tables, ∀ i, t.length ≤ i →
        rowContribution i t = some (List.replicate (t.headI.length) ([] : PyStr)) := by
  obtain ⟨rows, hrows⟩ :=
    consolidateRows_some tables h ((tables.map List.length).foldl max 0)
  exact ⟨rows, hrows, consolidateRows_length tables _ rows hrows,
    fun t ht i hle => rowContribution_pad i t (h t ht) hle⟩

/-- Claim C6, witness: tables of 5 and 8 rows consolidate to exactly 8
rows, the shorter table padded with empty cells of its own width. -/
theorem c6_witness :
    (∀ t ∈ [List.replicate 5 [("a".toList)],
        List.replicate 8 [("b".toList), ("c".toList)]], t ≠ ([] : List (List PyStr))) ∧
    ∃ rows, consolidate_csvs [List.replicate 5 [("a".toList)],
        List.replicate 8 [("b".toList), ("c".toList)]] = some rows ∧
      rows.length = (([List.replicate 5 [("a".toList)],
        List.replicate 8 [("b".toList), ("c".toList)]] :
          List (List (List PyStr))).map List.length).foldl max 0 ∧
      ∀ t ∈ [List.replicate 5 [("a".toList)],
          List.replicate 8 [("b".toList), ("c".toList)]], ∀ i, t.length ≤ i →
        rowContribution i t = some (List.replicate (t.headI.length) ([] : PyStr)) :=
  ⟨by decide, c6_consolidate_padding _ (by decide)⟩

/-- Claim C7. Consolidating a single table reproduces it exactly: each
consolidated row is that table's own row with the one trailing gap cell
dropped again, no padding row is ever needed, and the row count equals the
table's. Equal row grids serialize (by the same `csv.writer` that produced
the input buffer) to byte-identical CSV text. -/
theorem c7_consolidate_single_roundtrip (t : List (List PyStr)) :
    consolidate_csvs [t] = some t := by
  unfold consolidate_csvs
  have hmax : (([t] : List (List (List PyStr))).map List.length).foldl max 0 = t.length := by
    simp [Nat.zero_max]
  rw [hmax, consolidateRows_single t t.length (le_refl _), List.take_length]

/-- Claim C8, counterexample. The claim's canonical rule takes the share
count as the FIRST RUN OF DECIMAL DIGITS after the colon and the class as
the text between those digits and `"shares"`. On
`"Shareholding 3: about 1500 Ordinary shares"` the code instead stores the
first whitespace token `"about"` as the count and `"1500 Ordinary"` as the
class — not `1500` and `"Ordinary"` as the claimed rule requires. -/
theorem c8_counterexample :
    (process_text_to_csv ("Shareholding 3: about 1500 Ordinary shares".toList)
      ("Acme Ltd".toList) ("123".toList) 1).map (fun p => p.1.get? 8) =
      some (some [([] : PyStr), ("3".toList), ("about".toList),
        ("1500 Ordinary".toList), pendingL]) ∧
    ("about".toList : PyStr) ≠ ("1500".toList) := by
  constructor
  · decide
  · decide

/-- Claim C8, amended. For a completed block line: the share count is the
first whitespace-delimited token after the line's first colon (whether or
not it consists of digits); the share class is formed from the remaining
tokens joined by single spaces and lowercased — the text strictly before
the first occurrence of the substring `" shares"` (so also before a
`"shares"`-prefixed longer word), rendered in title case, or `"Unknown"`
when no such occurrence exists; the shareholding number is the last token
before the colon. (`singleSpaced` always holds for the joined-token string
the code builds; under it the regex capture equals the plain substring
search.) -/
theorem c8_field_extraction_first_token (line p0 p1 : PyStr) (tl : List PyStr)
    (amt : PyStr) (rest : List PyStr)
    (hsh : pyStartsWith line shareholdingL = true)
    (hsplit : splitOnChar ':' line = p0 :: p1 :: tl)
    (htok : pyTokens (pyStrip p1) = amt :: rest)
    (hss : singleSpaced ((joinSpace rest).map Char.toLower) = true) :
    ∃ num, (pyTokens p0).getLast? = some num ∧
      parseShareholdingLine line = some (num, amt,
        match takeBeforeSpaceShares ((joinSpace rest).map Char.toLower) with
        | some g => pyTitle g
        | none => unknownL) := by
  obtain ⟨num, hnum⟩ := shareholding_num_exists line p0 (p1 :: tl) hsh hsplit
  refine ⟨num, hnum, ?_⟩
  rw [parseShareholdingLine_eq line p0 p1 tl num amt rest hsplit hnum htok]
  unfold typeOfShares
  rw [sharesGroup1_eq_takeBefore _ hss]

/-- Claim C8, witness: the spec's Example 1 line
`"Shareholding 3: 1500 Ordinary shares held as at the date"` extracts
number `"3"`, count token `"1500"` and class `"Ordinary"`. -/
theorem c8_witness :
    singleSpaced ((joinSpace [("Ordinary".toList), ("shares".toList), ("held".toList),
      ("as".toList), ("at".toList), ("the".toList), ("date".toList)]).map Char.toLower) = true ∧
    ∃ num, (pyTokens ("Shareholding 3".toList)).getLast? = some num ∧
      parseShareholdingLine
        ("Shareholding 3: 1500 Ordinary shares held as at the date".toList) =
        some (num, ("1500".toList),
          match takeBeforeSpaceShares ((joinSpace [("Ordinary".toList), ("shares".toList),
            ("held".toList), ("as".toList), ("at".toList), ("the".toList),
            ("date".toList)]).map Char.toLower) with
          | some g => pyTitle g
          | none => unknownL) :=
  ⟨by decide,
    c8_field_extraction_first_token
      ("Shareholding 3: 1500 Ordinary shares held as at the date".toList)
      ("Shareholding 3".toList)
      (" 1500 Ordinary shares held as at the date".toList) []
      ("1500".toList)
      [("Ordinary".toList), ("shares".toList), ("held".toList), ("as".toList),
        ("at".toList), ("the".toList), ("date".toList)]
      (by decide) (by decide) (by decide) (by decide)⟩

/-- Claim C9. For empty input text the parse returns — without raising —
exactly the fixed skeleton: six metadata rows (with a blank statement-date
cell), the blank separator row and the shareholding header row, and zero
data rows; the extracted date is empty. -/
theorem c9_empty_input (legal_name company_number : PyStr) (statement_number : Nat) :
    process_text_to_csv [] legal_name company_number statement_number =
      some ([[("Company Legal Name".toList)],
             [legal_name],
             [("Company Number".toList)],
             [company_number],
             [("Statement Date".toList)],
             [([] : PyStr)],
             [],
             [([] : PyStr), ("Shareholding #".toList), ("Amount of Shares".toList),
               ("Type of Shares".toList), ("Shareholder Name".toList)]], ([] : PyStr)) :=
  rfl

/-- Claim C10. When the first `"Name:"` line the forward search finds
after a `"Shareholding"` line has no text between its colon and the next
colon or end of line (e.g. the line is exactly `"Name:"`), the captured
name is empty and `shareholder_name or "PENDING"` turns it into the
sentinel: the record gets `"PENDING"`, indistinguishable from the
no-`"Name:"`-line-at-all case. -/
theorem c10_empty_name_gives_pending (shLine nameLine date : PyStr)
    (mid tail : List PyStr) (num amt cls : PyStr) (recs : List (List PyStr))
    (hsh : pyStartsWith (pyStrip shLine) shareholdingL = true)
    (hparse : parseShareholdingLine (pyStrip shLine) = some (num, amt, cls))
    (hmid : ∀ m ∈ mid, pyStartsWith (pyStrip m) nameL = false)
    (hname : pyStartsWith (pyStrip nameLine) nameL = true)
    (hempty : pyStrip (((splitOnChar ':' (pyStrip nameLine)).get? 1).getD []) = []) :
    loopAux (shLine :: (mid ++ nameLine :: tail)) date recs =
      loopAux (mid ++ nameLine :: tail) (dateUpd date (pyStrip shLine))
        (recs ++ [[num, amt, cls, pendingL]]) := by
  rw [loopAux_cons_shareholding shLine (mid ++ nameLine :: tail)
    date recs num amt cls hsh hparse]
  have hscan : scanName (mid ++ nameLine :: tail) = [] := by
    rw [scanName_append mid (nameLine :: tail) hmid,
      scanName_cons_name nameLine tail hname, hempty]
  rw [show holderName (mid ++ nameLine :: tail) = pendingL from by
    simp [holderName, hscan]]

/-- Claim C10, witness: a block followed by the bare line `"Name:"` gets
the sentinel `"PENDING"`, not the empty string. -/
theorem c10_witness :
    pyStrip (((splitOnChar ':' (pyStrip ("Name:".toList))).get? 1).getD []) = [] ∧
    loopAux [("Shareholding 1: 100 Ordinary shares".toList), ("Name:".toList)] [] [] =
      loopAux [("Name:".toList)]
        (dateUpd [] (pyStrip ("Shareholding 1: 100 Ordinary shares".toList)))
        [[("1".toList), ("100".toList), ("Ordinary".toList), pendingL]] :=
  ⟨by decide,
    c10_empty_name_gives_pending ("Shareholding 1: 100 Ordinary shares".toList)
      ("Name:".toList) [] [] [] ("1".toList) ("100".toList) ("Ordinary".toList) []
      (by decide) (by decide) (by decide) (by decide) (by decide)⟩
